import Mathlib

/-!
Verification development for the command-line dispatcher of the repository
(`scrapy/cmdline.py`) and for the scheduling-core priority queue described by
the specification.

The Python module is shallowly embedded: every function of `cmdline.py` is
translated into a pure Lean function over an explicit `World` that abstracts
the external collaborators (module walking, entry points, the environment,
`optparse` argument parsing, project detection).  Side effects (printing,
`sys.exit`, exceptions) are made explicit: printing becomes a list of
`Event`s, process exit and propagating exceptions become a `ControlFlow`
value, and Python exceptions raised by library calls become `Except` /
`PyResult` values.
-/

/-- A Python settings value, as far as the dispatcher observes it: either
`None` (returned by `Settings.__getitem__` for a missing key) or a string. -/
inductive SettingVal where
  | none : SettingVal
  | str : String → SettingVal
  deriving DecidableEq, Repr

/-- Python truthiness of a settings value: `None` and `""` are falsy. -/
def SettingVal.truthy : SettingVal → Bool
  | .none => false
  | .str s => s ≠ ""

/-- The underlying string of a settings value (`""` for `None`). -/
def SettingVal.asStr : SettingVal → String
  | .none => ""
  | .str s => s

/-- One stored setting: key, value and the priority it was set at. -/
structure SettingEntry where
  key : String
  value : SettingVal
  priority : Nat
  deriving DecidableEq, Repr

/-- Modelled from the spec: the settings object handed to the dispatcher
("settings loading/merging" is an external collaborator; `scrapy.settings`
is not part of the given sources).  A mutable mapping whose `set` keeps the
per-key priority and overwrites only when the new priority is at least the
stored one, exactly the behaviour `execute` relies on through
`settings[...] = ...` and `settings.setdict(..., priority='command')`. -/
structure Settings where
  entries : List SettingEntry
  deriving DecidableEq, Repr

/-- Modelled from the spec: the priority table of the settings object
(`default < command < project < spider < cmdline`). -/
def get_settings_priority : String → Nat
  | "default" => 0
  | "command" => 10
  | "project" => 20
  | "spider" => 30
  | "cmdline" => 40
  | _ => 0

/-- First entry with the given key. -/
def findEntry : List SettingEntry → String → Option SettingEntry
  | [], _ => Option.none
  | e :: rest, k => if e.key = k then some e else findEntry rest k

/-- Set a key in the entry list: a fresh key is appended with the given
priority; an existing key is overwritten only when the new priority is at
least the stored one. -/
def setEntries : List SettingEntry → String → SettingVal → Nat → List SettingEntry
  | [], k, v, p => [⟨k, v, p⟩]
  | e :: rest, k, v, p =>
      if e.key = k then
        (if e.priority ≤ p then ⟨k, v, p⟩ :: rest else e :: rest)
      else
        e :: setEntries rest k v p

/-- `Settings.set(name, value, priority)` of the settings object. -/
def Settings.set (s : Settings) (k : String) (v : SettingVal) (p : Nat) : Settings :=
  ⟨setEntries s.entries k v p⟩

/-- `Settings.setdict(d, priority)`: set every pair of `d` at priority `p`. -/
def Settings.setdict (s : Settings) (d : List (String × SettingVal)) (p : Nat) : Settings :=
  d.foldl (fun acc kv => acc.set kv.1 kv.2 p) s

/-- `Settings.__getitem__`: the stored value, or `None` for a missing key. -/
def Settings.getItem (s : Settings) (k : String) : SettingVal :=
  match findEntry s.entries k with
  | some e => e.value
  | Option.none => .none

/-- `Settings.getpriority`: priority of a stored key, if present. -/
def Settings.getpriority (s : Settings) (k : String) : Option Nat :=
  (findEntry s.entries k).map (·.priority)

/-- A Python `dict` keyed by strings, as an association list in insertion
order with unique keys (every dict below is built through `dictSet`). -/
abbrev Dict (α : Type) := List (String × α)

/-- `d[k]`, as an optional lookup. -/
def dictGet {α : Type} : Dict α → String → Option α
  | [], _ => Option.none
  | kv :: rest, k => if kv.1 = k then some kv.2 else dictGet rest k

/-- `d[k] = v`: overwrite in place when the key exists, append otherwise. -/
def dictSet {α : Type} : Dict α → String → α → Dict α
  | [], k, v => [(k, v)]
  | kv :: rest, k, v => if kv.1 = k then (k, v) :: rest else kv :: dictSet rest k v

/-- `d.update(e)`: set every pair of `e` into `d`, in order. -/
def dictUpdate {α : Type} (d e : Dict α) : Dict α :=
  e.foldl (fun acc kv => dictSet acc kv.1 kv.2) d

/-- The keys of a dict, in order. -/
def dictKeys {α : Type} (d : Dict α) : List String := d.map (·.1)

/-- `(a or b)` on optional values: the left value when present. -/
def optOr {α : Type} : Option α → Option α → Option α
  | some x, _ => some x
  | Option.none, b => b

/-- Options object produced by `optparse` argument parsing; the dispatcher
only ever reads `opts.profile`. -/
structure Opts where
  profile : Option String

/-- Outcome of calling a Python function, as the dispatcher distinguishes
outcomes: normal return, a raised `scrapy.exceptions.UsageError` (carrying
`str(e)` and its `print_help` flag), or any other raised exception. -/
inductive PyResult (α : Type) where
  | ok : α → PyResult α
  | usageError : String → Bool → PyResult α
  | raisedOther : String → PyResult α

/-- The `optparse.OptionParser` state the dispatcher writes. -/
structure OptParser where
  usage : String
  description : String

/-- A `ScrapyCommand` subclass: identity, defining module (`__module__`),
the class attributes the dispatcher reads, and the behaviour of the methods
`execute` invokes on an instance.  `exitcodeAfterRun` is the value of the
instance's `exitcode` attribute after `run` returned normally. -/
structure CmdClass where
  id : Nat
  clsModule : String
  requires_project : Bool
  default_settings : List (String × SettingVal)
  shortDesc : String
  synStr : String
  longDesc : String
  processOptions : List String → Opts → PyResult Unit
  runCmd : List String → Opts → PyResult Unit
  exitcodeAfterRun : List String → Opts → Int

/-- An instance `cls()` of a command class. -/
structure CmdInstance where
  cls : CmdClass

/-- An object found in the namespace of a walked module, with the
introspection facts `_iter_command_classes` tests and, when the object is a
command class, that class (`cls` is a dummy payload otherwise). -/
structure PyObj where
  isclass : Bool
  issubclassOfScrapyCommand : Bool
  isScrapyCommandItself : Bool
  cls : CmdClass

/-- A module yielded by `walk_modules`: its `__name__` and the values of
`vars(module)`. -/
structure PyModule where
  name : String
  objs : List PyObj

/-- An entry point of the `scrapy.commands` group: its name, whether
`entry_point.load()` returns a class, and the loaded class when it does. -/
structure EntryPoint where
  name : String
  loadsClass : Bool
  cls : CmdClass

/-- The external collaborators of the dispatcher: `walk_modules`,
`pkg_resources.iter_entry_points`, the `scrapy.conf` backward-compatibility
singleton, `get_project_settings`, the `EDITOR` environment variable,
`inside_project`, `sys.argv`, and `optparse` parsing (which yields the
positional arguments and the options object). -/
structure World where
  walkModules : String → List PyModule
  entryPoints : List EntryPoint
  sysArgv : List String
  scrapyConfInSysModules : Bool
  confHasSettings : Bool
  confSettings0 : Settings
  projectSettings : Settings
  editorEnv : Option String
  insideProject : Bool
  parseArgs : List String → List String × Opts

/-- `CrawlerProcess(settings)`, as far as the dispatcher observes it. -/
structure CrawlerProcess where
  settings : Settings

/-- One printed line / output action of the dispatcher.  Print calls are
abstracted to structured events carrying the data they interpolate. -/
inductive Event where
  | header (inproject : Bool) (botName : SettingVal)
  | printCommandsList (items : List (String × String))
  | printMoreHint
  | printUnknown (cmdname : String)
  | parserError (msg : String)
  | printHelp
  | profileNotice (path : String)
  | dumpStats (path : String)
  deriving DecidableEq, Repr

/-- How a piece of dispatcher code hands back control: normal return,
`sys.exit(n)` (`SystemExit`), or a propagating exception. -/
inductive ControlFlow where
  | normal : ControlFlow
  | exited : Int → ControlFlow
  | raised : String → ControlFlow
  deriving DecidableEq, Repr

/-- `_iter_command_classes(module_name)`: every object of every walked
module that is a class, a subclass of `ScrapyCommand`, defined in the module
it was found in (`obj.__module__ == module.__name__`), and not
`ScrapyCommand` itself. -/
def _iter_command_classes (w : World) (mname : String) : List CmdClass :=
  (w.walkModules mname).flatMap fun m =>
    (m.objs.filter fun o =>
      o.isclass && o.issubclassOfScrapyCommand &&
        (o.cls.clsModule == m.name) && !o.isScrapyCommandItself).map (·.cls)

/-- `s.startswith(pre)`, computed on the character lists so that concrete
runs reduce inside the kernel. -/
def pyStartsWith (s pre : String) : Bool :=
  pre.data.isPrefixOf s.data

/-- `str.split(sep)` on character lists: split at every separator. -/
def splitChars (sep : Char) : List Char → List Char → List (List Char)
  | [], acc => [acc.reverse]
  | c :: rest, acc =>
      if c = sep then acc.reverse :: splitChars sep rest []
      else splitChars sep rest (c :: acc)

/-- `cmd.__module__.split('.')[-1]`. -/
def lastComponent (s : String) : String :=
  match (splitChars (Char.ofNat 46) s.data []).getLast? with
  | some x => ⟨x⟩
  | Option.none => ""

/-- `_get_commands_from_module(module, inproject)`: instantiate every
yielded class that is usable outside a project or when inside one, keyed by
the last dot-component of its defining module name. -/
def _get_commands_from_module (w : World) (mname : String) (inproject : Bool) :
    Dict CmdInstance :=
  (_iter_command_classes w mname).foldl
    (fun d cmd =>
      if inproject || !cmd.requires_project then
        dictSet d (lastComponent cmd.clsModule) ⟨cmd⟩
      else d)
    []

/-- Helper for `_get_commands_from_entry_points`: process the entry points
in order, instantiating classes and aborting with `Exception` on the first
entry point whose loaded object is not a class. -/
def entryPointsLoop : List EntryPoint → Dict CmdInstance → Except String (Dict CmdInstance)
  | [], acc => .ok acc
  | ep :: rest, acc =>
      if ep.loadsClass then
        entryPointsLoop rest (dictSet acc ep.name ⟨ep.cls⟩)
      else
        .error ("Invalid entry point " ++ ep.name)

/-- `_get_commands_from_entry_points(inproject, group='scrapy.commands')`. -/
def _get_commands_from_entry_points (w : World) : Except String (Dict CmdInstance) :=
  entryPointsLoop w.entryPoints []

/-- `_get_commands_dict(settings, inproject)`: built-in module commands,
updated with entry-point commands, updated with the commands of
`settings['COMMANDS_MODULE']` when that setting is truthy.  The exception of
a bad entry point propagates. -/
def _get_commands_dict (w : World) (settings : Settings) (inproject : Bool) :
    Except String (Dict CmdInstance) :=
  let cmds := _get_commands_from_module w "scrapy.commands" inproject
  match _get_commands_from_entry_points w with
  | .error e => .error e
  | .ok eps =>
      let cmds := dictUpdate cmds eps
      let cmds_module := settings.getItem "COMMANDS_MODULE"
      if cmds_module.truthy then
        .ok (dictUpdate cmds (_get_commands_from_module w cmds_module.asStr inproject))
      else
        .ok cmds

/-- Helper for `_pop_command_name`: scan `argv[1:]` keeping the running
index `i`; on the first element not starting with `-`, delete `argv[i]`
(the element before the one returned) and return the element. -/
def popGo (argv : List String) : List String → Nat → Option String × List String
  | [], _ => (Option.none, argv)
  | arg :: rest, i =>
      if !(pyStartsWith arg "-") then (some arg, argv.eraseIdx i)
      else popGo argv rest (i + 1)

/-- `_pop_command_name(argv)`: the returned command name (or `None`) paired
with the mutated `argv`. -/
def _pop_command_name (argv : List String) : Option String × List String :=
  popGo argv (argv.drop 1) 0

/-- `_print_header(settings, inproject)`. -/
def _print_header (settings : Settings) (inproject : Bool) : List Event :=
  if inproject then [.header true (settings.getItem "BOT_NAME")]
  else [.header false .none]

/-- Insert a `(name, short_desc)` pair into a name-sorted list. -/
def insertSorted (x : String × String) : List (String × String) → List (String × String)
  | [] => [x]
  | y :: ys => if x.1 ≤ y.1 then x :: y :: ys else y :: insertSorted x ys

/-- `sorted(cmds.items())` (dict keys are unique, so sorting by name). -/
def sortByName (l : List (String × String)) : List (String × String) :=
  l.foldr insertSorted []

/-- `_print_commands(settings, inproject)`: the events printed and, when the
embedded `_get_commands_dict` call raises, the propagating exception. -/
def _print_commands (w : World) (settings : Settings) (inproject : Bool) :
    List Event × Option String :=
  let hdr := _print_header settings inproject
  match _get_commands_dict w settings inproject with
  | .error e => (hdr, some e)
  | .ok cmds =>
      (hdr ++ [.printCommandsList (sortByName (cmds.map fun kv => (kv.1, kv.2.cls.shortDesc)))] ++
        (if inproject then [] else [.printMoreHint]), Option.none)

/-- `_print_unknown_command(settings, cmdname, inproject)`. -/
def _print_unknown_command (settings : Settings) (cmdname : String) (inproject : Bool) :
    List Event :=
  _print_header settings inproject ++ [.printUnknown cmdname]

/-- `_run_print_help(parser, func, *a, **kw)` applied to the outcome of
`func(*a, **kw)`.  On `UsageError`: a non-empty `str(e)` goes to
`parser.error`, which itself prints the message and terminates the process
with status 2 (`optparse.OptionParser.error` raises `SystemExit(2)`), so
the `print_help` branch is only reached when `str(e)` is empty; the final
`sys.exit(2)` covers the remaining case.  Other exceptions propagate. -/
def _run_print_help (p : OptParser) (res : PyResult Unit) : List Event × ControlFlow :=
  match res with
  | .ok _ => ([], .normal)
  | .usageError msg ph =>
      if msg ≠ "" then ([.parserError msg], .exited 2)
      else if ph then ([.printHelp], .exited 2)
      else ([], .exited 2)
  | .raisedOther e => ([], .raised e)

/-- `_run_command(cmd, args, opts)`: run directly, or under `cProfile` when
`opts.profile` is truthy (the stats-file notice is written to stderr first
and the stats are dumped only when `run` returns normally). -/
def _run_command (cmd : CmdInstance) (args : List String) (opts : Opts) :
    List Event × PyResult Unit :=
  match opts.profile with
  | some f =>
      if f ≠ "" then
        let res := cmd.cls.runCmd args opts
        ([.profileNotice f] ++ (match res with | .ok _ => [.dumpStats f] | _ => []), res)
      else ([], cmd.cls.runCmd args opts)
  | Option.none => ([], cmd.cls.runCmd args opts)

/-- The settings-resolution prologue of `execute` (lines up to the
`conf.settings = settings` write): an explicitly passed settings object is
used as is; otherwise the pre-imported `scrapy.conf.settings` singleton when
available; otherwise `get_project_settings()` with `EDITOR` set from the
environment when that variable is present. -/
def resolveInitialSettings (w : World) (settings? : Option Settings) : Settings :=
  match settings? with
  | some s => s
  | Option.none =>
      if w.scrapyConfInSysModules && w.confHasSettings then w.confSettings0
      else
        match w.editorEnv with
        | some e => w.projectSettings.set "EDITOR" (.str e) (get_settings_priority "project")
        | Option.none => w.projectSettings

/-- The observable state of the selected command object when `execute`
finishes: its class, its `settings` and `crawler_process` attributes, and
whether `process_options` / `run` were invoked. -/
structure FinalCmdState where
  cls : CmdClass
  settingsAttr : Settings
  crawlerProcess : Option CrawlerProcess
  ranProcessOptions : Bool
  ranRun : Bool

/-- Outcome, printed events and final command state of the part of
`execute` that follows settings resolution. -/
structure CoreOut where
  outcome : ControlFlow
  events : List Event
  finalCmd : Option FinalCmdState

/-- The `if not cmdname` branch of `execute`: print the listing and exit 0
(or propagate the exception of the embedded discovery call). -/
def listingOut (w : World) (settings : Settings) (inproject : Bool) : CoreOut :=
  let pc := _print_commands w settings inproject
  match pc.2 with
  | some e => ⟨.raised e, pc.1, Option.none⟩
  | Option.none => ⟨.exited 0, pc.1, Option.none⟩

/-- The command branch of `execute`: configure the parser, merge the
command's `default_settings` at priority `command`, assign `cmd.settings`,
parse the remaining arguments, run `process_options` under
`_run_print_help`, assign `cmd.crawler_process`, run the command under
`_run_print_help`, and exit with the command's `exitcode`. -/
def commandPath (w : World) (settings : Settings) (c : String) (cmd : CmdInstance)
    (argvPopped : List String) : CoreOut :=
  let cls := cmd.cls
  let parser : OptParser :=
    { usage := "scrapy " ++ c ++ " " ++ cls.synStr, description := cls.longDesc }
  let settings2 := settings.setdict cls.default_settings (get_settings_priority "command")
  let pa := w.parseArgs (argvPopped.drop 1)
  let args := pa.1
  let opts := pa.2
  let r1 := _run_print_help parser (cls.processOptions args opts)
  match r1.2 with
  | .exited n => ⟨.exited n, r1.1, some ⟨cls, settings2, Option.none, true, false⟩⟩
  | .raised e => ⟨.raised e, r1.1, some ⟨cls, settings2, Option.none, true, false⟩⟩
  | .normal =>
      let cp : CrawlerProcess := ⟨settings2⟩
      let rc := _run_command cmd args opts
      let r2 := _run_print_help parser rc.2
      let fc : FinalCmdState := ⟨cls, settings2, some cp, true, true⟩
      match r2.2 with
      | .exited n => ⟨.exited n, r1.1 ++ rc.1 ++ r2.1, some fc⟩
      | .raised e => ⟨.raised e, r1.1 ++ rc.1 ++ r2.1, some fc⟩
      | .normal => ⟨.exited (cls.exitcodeAfterRun args opts), r1.1 ++ rc.1 ++ r2.1, some fc⟩

/-- `execute` after settings resolution: project detection, command
discovery, command-name extraction, and the three-way branch. -/
def executeCore (w : World) (argv : List String) (settings : Settings) : CoreOut :=
  let inproject := w.insideProject
  match _get_commands_dict w settings inproject with
  | .error e => ⟨.raised e, [], Option.none⟩
  | .ok cmds =>
      let pr := _pop_command_name argv
      match pr.1 with
      | Option.none => listingOut w settings inproject
      | some c =>
          if c = "" then listingOut w settings inproject
          else
            match dictGet cmds c with
            | Option.none => ⟨.exited 2, _print_unknown_command settings c inproject, Option.none⟩
            | some cmd => commandPath w settings c cmd pr.2

/-- Result of `execute(argv, settings)`: control flow, printed events, the
settings object written into the `scrapy.conf.settings` singleton, and the
final state of the selected command object (when one was selected). -/
structure ExecResult where
  outcome : ControlFlow
  events : List Event
  confSettings : Option Settings
  finalCmd : Option FinalCmdState

/-- `execute(argv=None, settings=None)`. -/
def execute (w : World) (argv? : Option (List String)) (settings? : Option Settings) :
    ExecResult :=
  let argv := argv?.getD w.sysArgv
  let settings := resolveInitialSettings w settings?
  let core := executeCore w argv settings
  { outcome := core.outcome, events := core.events,
    confSettings := some settings, finalCmd := core.finalCmd }

/-- The last element of a list satisfying `q`, if any. -/
def pickLast {α : Type} (q : α → Bool) : List α → Option α
  | [] => Option.none
  | c :: rest =>
      match pickLast q rest with
      | some r => some r
      | Option.none => if q c then some c else Option.none

/-- Modelled from the spec: a fetch request of the scheduling core (the
concurrent crawl engine is not part of the given sources).  Only the fields
the queue scenario observes are kept: an identifying name and the priority
(higher = sooner). -/
structure SchedRequest where
  name : String
  priority : Int
  deriving DecidableEq, Repr

/-- Modelled from the spec: a `QueueEntry` wraps a request with its enqueue
sequence number for stable tie-breaking on equal priority. -/
structure QueueEntry where
  req : SchedRequest
  seqNo : Nat
  deriving DecidableEq, Repr

/-- Entry `a` is dequeued strictly before entry `b`: higher priority first,
and lower sequence number (earlier insertion) first on equal priority. -/
def entryBefore (a b : QueueEntry) : Bool :=
  (b.req.priority < a.req.priority) ||
    (a.req.priority == b.req.priority && a.seqNo < b.seqNo)

/-- Modelled from the spec: the scheduling core's Priority Queue, with its
entries kept in dequeue order ((priority descending, sequence ascending))
and the next sequence number to assign. -/
structure PQueue where
  entries : List QueueEntry
  nextSeq : Nat
  deriving DecidableEq, Repr

/-- The empty queue. -/
def PQueue.empty : PQueue := ⟨[], 0⟩

/-- Ordered insertion of an entry into the entry list. -/
def insertEntry (e : QueueEntry) : List QueueEntry → List QueueEntry
  | [] => [e]
  | x :: xs => if entryBefore e x then e :: x :: xs else x :: insertEntry e xs

/-- Modelled from the spec: `push(request)` inserts a `QueueEntry` ordered
by (priority descending, sequence ascending). -/
def PQueue.push (q : PQueue) (r : SchedRequest) : PQueue :=
  ⟨insertEntry ⟨r, q.nextSeq⟩ q.entries, q.nextSeq + 1⟩

/-- Modelled from the spec: `pop_ready` with an unlimited throttle (every
partition key eligible) returns the highest-priority, earliest-inserted
entry, or nothing when the queue is empty. -/
def PQueue.popReady (q : PQueue) : Option SchedRequest × PQueue :=
  match q.entries with
  | [] => (Option.none, q)
  | e :: rest => (some e.req, ⟨rest, q.nextSeq⟩)

/-- The spec's scenario queue: requests A(priority 5), B(priority 1),
C(priority 5) pushed in that order. -/
def scenarioQueue : PQueue :=
  PQueue.push (PQueue.push (PQueue.push PQueue.empty ⟨"A", 5⟩) ⟨"B", 1⟩) ⟨"C", 5⟩

/-- A command class with inert behaviour, used as the base of the concrete
examples below. -/
def defaultCls : CmdClass :=
  { id := 0, clsModule := "", requires_project := false, default_settings := []
    shortDesc := "", synStr := "", longDesc := ""
    processOptions := fun _ _ => .ok ()
    runCmd := fun _ _ => .ok ()
    exitcodeAfterRun := fun _ _ => 0 }

/-- Wrap a command class as the module-namespace object introspection sees:
a proper `ScrapyCommand` subclass. -/
def objOf (c : CmdClass) : PyObj :=
  { isclass := true, issubclassOfScrapyCommand := true,
    isScrapyCommandItself := false, cls := c }

/-- Empty settings object. -/
def emptySettings : Settings := ⟨[]⟩

/-- A world in which every external collaborator is inert. -/
def baseWorld : World :=
  { walkModules := fun _ => []
    entryPoints := []
    sysArgv := ["scrapy"]
    scrapyConfInSysModules := false
    confHasSettings := false
    confSettings0 := emptySettings
    projectSettings := emptySettings
    editorEnv := Option.none
    insideProject := false
    parseArgs := fun l => (l, ⟨Option.none⟩) }

/-- The built-in `crawl` command class of the examples. -/
def crawlCls : CmdClass :=
  { defaultCls with id := 1, clsModule := "scrapy.commands.crawl" }

/-- A project-local command class that shadows `crawl`. -/
def projCrawlCls : CmdClass :=
  { defaultCls with id := 2, clsModule := "myproject.commands.crawl" }

/-- A command class registered through an entry point named `version`. -/
def versionCls : CmdClass :=
  { defaultCls with id := 3, clsModule := "thirdparty.version" }

/-- Two distinct command classes defined in the same module file
`m.fetch`; both are eligible outside a project. -/
def clsA : CmdClass := { defaultCls with id := 4, clsModule := "m.fetch" }

/-- Second command class of the module `m.fetch`. -/
def clsB : CmdClass := { defaultCls with id := 5, clsModule := "m.fetch" }

/-- A command class whose `process_options` raises
`UsageError("bad arguments")`. -/
def usageErrCls : CmdClass :=
  { defaultCls with
    id := 6
    clsModule := "scrapy.commands.bad"
    processOptions := fun _ _ => .usageError "bad arguments" false }

/-- A world with one built-in command (`crawl`), one entry-point command
(`version`), and a project-local commands module shadowing `crawl`. -/
def fullWorld : World :=
  { baseWorld with
    walkModules := fun n =>
      if n = "scrapy.commands" then [⟨"scrapy.commands.crawl", [objOf crawlCls]⟩]
      else if n = "myproject.commands" then [⟨"myproject.commands.crawl", [objOf projCrawlCls]⟩]
      else []
    entryPoints := [⟨"version", true, versionCls⟩] }

/-- Settings selecting `myproject.commands` as the project commands module. -/
def projSettings : Settings :=
  ⟨[⟨"COMMANDS_MODULE", .str "myproject.commands", 20⟩]⟩

/-- A world whose walked module `m` defines the two classes `clsA`, `clsB`
in the same module file. -/
def twoClassWorld : World :=
  { baseWorld with walkModules := fun n =>
      if n = "m" then [⟨"m.fetch", [objOf clsA, objOf clsB]⟩] else [] }

/-- A world whose only command is `bad`, with a `process_options` that
raises a `UsageError`. -/
def usageErrWorld : World :=
  { baseWorld with walkModules := fun n =>
      if n = "scrapy.commands" then [⟨"scrapy.commands.bad", [objOf usageErrCls]⟩] else [] }

/-- A world with one well-formed entry point followed by an entry point
whose loaded object is not a class. -/
def badEntryWorld : World :=
  { baseWorld with entryPoints := [⟨"version", true, versionCls⟩, ⟨"broken", false, defaultCls⟩] }

/-- A parser value for concrete `_run_print_help` examples. -/
def someParser : OptParser := { usage := "", description := "" }

/-- A world where `scrapy.conf` is already imported and carries a settings
object. -/
def confWorld : World :=
  { baseWorld with
    scrapyConfInSysModules := true
    confHasSettings := true
    confSettings0 := projSettings }

/-- A world with the `EDITOR` environment variable set. -/
def editorWorld : World :=
  { baseWorld with editorEnv := some "vim" }

/-- The final command state `execute` produces for `scrapy crawl` in
`fullWorld`. -/
def crawlFinalState : FinalCmdState :=
  ⟨crawlCls, emptySettings, some ⟨emptySettings⟩, true, true⟩

theorem dictGet_dictSet {α : Type} (d : Dict α) (k : String) (v : α) (k' : String) :
    dictGet (dictSet d k v) k' = if k' = k then some v else dictGet d k' := by
  induction d with
  | nil =>
      simp only [dictSet, dictGet]
      by_cases h : k = k'
      · rw [if_pos h, if_pos h.symm]
      · rw [if_neg h, if_neg (fun hh => h hh.symm)]
  | cons kv rest ih =>
      by_cases h1 : kv.1 = k
      · rw [show dictSet (kv :: rest) k v = (k, v) :: rest from by simp [dictSet, h1]]
        by_cases h2 : k' = k
        · rw [if_pos h2]
          simp only [dictGet]
          rw [if_pos h2.symm]
        · rw [if_neg h2]
          simp only [dictGet]
          rw [if_neg (fun hh : k = k' => h2 hh.symm),
            if_neg (fun hh : kv.1 = k' => h2 (hh.symm.trans h1))]
  
      · rw [show dictSet (kv :: rest) k v = kv :: dictSet rest k v from by simp [dictSet, h1]]
        simp only [dictGet]
        by_cases h2 : kv.1 = k'
        · rw [if_pos h2, if_pos h2, if_neg (fun hh : k' = k => h1 (h2.trans hh))]
        · rw [if_neg h2, if_neg h2, ih]

theorem mem_dictKeys_dictSet {α : Type} (d : Dict α) (k : String) (v : α) (k' : String) :
    k' ∈ dictKeys (dictSet d k v) ↔ k' ∈ dictKeys d ∨ k' = k := by
  induction d with
  | nil => simp [dictKeys, dictSet]
  | cons kv rest ih =>
      by_cases h1 : kv.1 = k
      · rw [show dictSet (kv :: rest) k v = (k, v) :: rest from by simp [dictSet, h1],
          show dictKeys ((k, v) :: rest) = k :: dictKeys rest from rfl,
          show dictKeys (kv :: rest) = kv.1 :: dictKeys rest from rfl, h1]
        simp [List.mem_cons]
        tauto
      · rw [show dictSet (kv :: rest) k v = kv :: dictSet rest k v from by simp [dictSet, h1],
          show dictKeys (kv :: dictSet rest k v) = kv.1 :: dictKeys (dictSet rest k v) from rfl,
          show dictKeys (kv :: rest) = kv.1 :: dictKeys rest from rfl]
        simp only [List.mem_cons, ih]
        tauto

theorem dictGet_eq_none_of_not_mem {α : Type} (d : Dict α) (k : String)
    (h : k ∉ dictKeys d) : dictGet d k = Option.none := by
  induction d with
  | nil => rfl
  | cons kv rest ih =>
      rw [show dictKeys (kv :: rest) = kv.1 :: dictKeys rest from rfl, List.mem_cons] at h
      push_neg at h
      simp only [dictGet]
      rw [if_neg (fun hh => h.1 hh.symm)]
      exact ih h.2

theorem nodup_dictKeys_dictSet {α : Type} (d : Dict α) (k : String) (v : α)
    (h : (dictKeys d).Nodup) : (dictKeys (dictSet d k v)).Nodup := by
  induction d with
  | nil => simp [dictKeys, dictSet]
  | cons kv rest ih =>
      rw [show dictKeys (kv :: rest) = kv.1 :: dictKeys rest from rfl, List.nodup_cons] at h
      by_cases h1 : kv.1 = k
      · rw [show dictSet (kv :: rest) k v = (k, v) :: rest from by simp [dictSet, h1],
          show dictKeys ((k, v) :: rest) = k :: dictKeys rest from rfl, List.nodup_cons]
        exact ⟨h1 ▸ h.1, h.2⟩
      · rw [show dictSet (kv :: rest) k v = kv :: dictSet rest k v from by simp [dictSet, h1],
          show dictKeys (kv :: dictSet rest k v) = kv.1 :: dictKeys (dictSet rest k v) from rfl,
          List.nodup_cons]
        refine ⟨fun hm => ?_, ih h.2⟩
        rcases (mem_dictKeys_dictSet rest k v kv.1).1 hm with hm | hm
        · exact h.1 hm
        · exact h1 hm

theorem dictGet_dictUpdate {α : Type} (e : Dict α) :
    ∀ (d : Dict α), (dictKeys e).Nodup →
      ∀ k, dictGet (dictUpdate d e) k = optOr (dictGet e k) (dictGet d k) := by
  induction e with
  | nil => intro d _ k; simp [dictUpdate, dictGet, optOr]
  | cons kv rest ih =>
      intro d hnd k
      rw [show dictKeys (kv :: rest) = kv.1 :: dictKeys rest from rfl, List.nodup_cons] at hnd
      rw [show dictUpdate d (kv :: rest) = dictUpdate (dictSet d kv.1 kv.2) rest from rfl,
        ih _ hnd.2 k]
      by_cases h : kv.1 = k
      · subst h
        rw [dictGet_eq_none_of_not_mem _ _ hnd.1,
          show dictGet (kv :: rest) kv.1 = some kv.2 from by simp [dictGet],
          dictGet_dictSet]
        simp [optOr]
      · rw [show dictGet (kv :: rest) k = dictGet rest k from by simp [dictGet, h],
          dictGet_dictSet, if_neg (fun hh => h hh.symm)]

theorem nodup_dictKeys_cmdsFold (inproject : Bool) :
    ∀ (l : List CmdClass) (acc : Dict CmdInstance), (dictKeys acc).Nodup →
      (dictKeys (l.foldl
        (fun d cmd =>
          if inproject || !cmd.requires_project then
            dictSet d (lastComponent cmd.clsModule) ⟨cmd⟩
          else d) acc)).Nodup := by
  intro l
  induction l with
  | nil => intro acc h; exact h
  | cons c rest ih =>
      intro acc h
      simp only [List.foldl_cons]
      by_cases hc : (inproject || !c.requires_project) = true
      · rw [if_pos hc]
        exact ih _ (nodup_dictKeys_dictSet _ _ _ h)
      · rw [if_neg hc]
        exact ih _ h

theorem nodup_dictKeys_module (w : World) (mname : String) (inproject : Bool) :
    (dictKeys (_get_commands_from_module w mname inproject)).Nodup := by
  exact nodup_dictKeys_cmdsFold inproject _ [] (by simp [dictKeys])

theorem nodup_dictKeys_entryPointsLoop :
    ∀ (l : List EntryPoint) (acc : Dict CmdInstance) (m : Dict CmdInstance),
      (dictKeys acc).Nodup → entryPointsLoop l acc = .ok m → (dictKeys m).Nodup := by
  intro l
  induction l with
  | nil =>
      intro acc m h hm
      simp only [entryPointsLoop] at hm
      cases hm
      exact h
  | cons ep rest ih =>
      intro acc m h hm
      simp only [entryPointsLoop] at hm
      by_cases hc : ep.loadsClass = true
      · rw [if_pos hc] at hm
        exact ih _ _ (nodup_dictKeys_dictSet _ _ _ h) hm
      · rw [if_neg hc] at hm
        cases hm

theorem entryPointsLoop_all_classes :
    ∀ (l : List EntryPoint) (acc : Dict CmdInstance),
      (∀ ep ∈ l, ep.loadsClass = true) →
      ∃ m, entryPointsLoop l acc = .ok m ∧
        (∀ k, k ∉ l.map EntryPoint.name → dictGet m k = dictGet acc k) ∧
        ((l.map EntryPoint.name).Nodup →
          ∀ ep ∈ l, dictGet m ep.name = some ⟨ep.cls⟩) := by
  intro l
  induction l with
  | nil =>
      intro acc _
      exact ⟨acc, rfl, fun _ _ => rfl, fun _ ep hm => absurd hm (List.not_mem_nil ep)⟩
  | cons ep rest ih =>
      intro acc hall
      have hep : ep.loadsClass = true := hall ep (List.mem_cons_self ep rest)
      obtain ⟨m, hm, hout, hin⟩ :=
        ih (dictSet acc ep.name ⟨ep.cls⟩) (fun e he => hall e (List.mem_cons_of_mem ep he))
      refine ⟨m, ?_, ?_, ?_⟩
      · simp only [entryPointsLoop, hep, if_pos]
        exact hm
      · intro k hk
        rw [List.map_cons, List.mem_cons] at hk
        push_neg at hk
        rw [hout k hk.2, dictGet_dictSet, if_neg hk.1]
      · intro hnd e he
        rw [List.map_cons, List.nodup_cons] at hnd
        rcases List.mem_cons.1 he with he | he
        · subst he
          rw [hout e.name hnd.1, dictGet_dictSet, if_pos rfl]
        · exact hin hnd.2 e he

theorem entryPointsLoop_first_bad :
    ∀ (l : List EntryPoint) (acc : Dict CmdInstance) (ep : EntryPoint),
      ep ∈ l → ep.loadsClass = false →
      ∃ bad, bad ∈ l ∧ bad.loadsClass = false ∧
        entryPointsLoop l acc = .error ("Invalid entry point " ++ bad.name) := by
  intro l
  induction l with
  | nil => intro acc ep hm; exact absurd hm (List.not_mem_nil ep)
  | cons e rest ih =>
      intro acc ep hm hbad
      by_cases hc : e.loadsClass = true
      · have hm' : ep ∈ rest := by
          rcases List.mem_cons.1 hm with h | h
          · subst h; rw [hc] at hbad; cases hbad
          · exact h
        obtain ⟨bad, hb1, hb2, hb3⟩ := ih (dictSet acc e.name ⟨e.cls⟩) ep hm' hbad
        exact ⟨bad, List.mem_cons_of_mem e hb1, hb2, by
          simp only [entryPointsLoop, hc, if_pos]; exact hb3⟩
      · refine ⟨e, List.mem_cons_self e rest, Bool.eq_false_iff.mpr hc, ?_⟩
        simp only [entryPointsLoop, if_neg hc]

theorem dictGet_cmdsFold (inproject : Bool) (k : String) :
    ∀ (l : List CmdClass) (acc : Dict CmdInstance),
      dictGet (l.foldl
        (fun d cmd =>
          if inproject || !cmd.requires_project then
            dictSet d (lastComponent cmd.clsModule) ⟨cmd⟩
          else d) acc) k
      = match pickLast
            (fun c => (inproject || !c.requires_project) &&
              (lastComponent c.clsModule == k)) l with
        | some c => some ⟨c⟩
        | Option.none => dictGet acc k := by
  intro l
  induction l with
  | nil => intro acc; rfl
  | cons c rest ih =>
      intro acc
      simp only [List.foldl_cons, pickLast]
      rw [ih]
      cases hp : pickLast
          (fun c => (inproject || !c.requires_project) &&
            (lastComponent c.clsModule == k)) rest with
      | some r => rfl
      | none =>
          by_cases he : (inproject || !c.requires_project) = true
          · rw [if_pos he]
            by_cases hk : lastComponent c.clsModule = k
            · have hq : ((inproject || !c.requires_project) &&
                  (lastComponent c.clsModule == k)) = true := by
                rw [he, hk]; simp
              rw [if_pos hq, dictGet_dictSet, hk, if_pos rfl]
            · have hq : ((inproject || !c.requires_project) &&
                  (lastComponent c.clsModule == k)) = false := by
                rw [he]
                simp [hk]
              rw [if_neg (by rw [hq]; exact Bool.false_ne_true), dictGet_dictSet,
                if_neg (fun hh => hk hh.symm)]
          · rw [if_neg he]
            have hq : ((inproject || !c.requires_project) &&
                (lastComponent c.clsModule == k)) = false := by
              rw [Bool.eq_false_iff.mpr he]
              simp
            rw [if_neg (by rw [hq]; exact Bool.false_ne_true)]

theorem popGo_spec (argv : List String) :
    ∀ (l : List String) (i : Nat),
      popGo argv l i =
        match l.find? (fun a => !(pyStartsWith a "-")) with
        | some c => (some c, argv.eraseIdx (i + l.findIdx (fun a => !(pyStartsWith a "-"))))
        | Option.none => (Option.none, argv) := by
  intro l
  induction l with
  | nil => intro i; rfl
  | cons a rest ih =>
      intro i
      by_cases ha : (!(pyStartsWith a "-")) = true
      · have hfind : List.find? (fun s => !(pyStartsWith s "-")) (a :: rest) = some a :=
          List.find?_cons_of_pos (p := fun s => !(pyStartsWith s "-")) rest (by simpa using ha)
        have hidx : List.findIdx (fun s => !(pyStartsWith s "-")) (a :: rest) = 0 := by
          rw [List.findIdx_cons, ha]
          rfl
        rw [show popGo argv (a :: rest) i = (some a, argv.eraseIdx i) from by
          simp only [popGo, ha, if_pos]]
        rw [hfind, hidx]
        simp
      · have hfa : ((fun s => !(pyStartsWith s "-")) a) = false := by simpa using ha
        have hfind : List.find? (fun s => !(pyStartsWith s "-")) (a :: rest)
            = List.find? (fun s => !(pyStartsWith s "-")) rest :=
          List.find?_cons_of_neg (p := fun s => !(pyStartsWith s "-")) rest (by simpa using ha)
        have hidx : List.findIdx (fun s => !(pyStartsWith s "-")) (a :: rest)
            = List.findIdx (fun s => !(pyStartsWith s "-")) rest + 1 := by
          rw [List.findIdx_cons, show (!(pyStartsWith a "-")) = false from by simpa using ha]
          rfl
        rw [show popGo argv (a :: rest) i = popGo argv rest (i + 1) from by
          simp only [popGo]
          rw [if_neg (by rw [Bool.eq_false_iff.mpr ha]; exact Bool.false_ne_true)]]
        rw [ih (i + 1), hfind, hidx]
        cases hf : rest.find? (fun s => !(pyStartsWith s "-")) with
        | some c =>
            rw [show i + (rest.findIdx (fun s => !(pyStartsWith s "-")) + 1)
                = i + 1 + rest.findIdx (fun s => !(pyStartsWith s "-")) from by omega]
        | none => rfl

theorem findEntry_setEntries_self :
    ∀ (l : List SettingEntry) (k : String) (v : SettingVal) (p : Nat),
      (∀ e, findEntry l k = some e → e.priority ≤ p) →
      findEntry (setEntries l k v p) k = some ⟨k, v, p⟩ := by
  intro l
  induction l with
  | nil =>
      intro k v p _
      simp [setEntries, findEntry]
  | cons e rest ih =>
      intro k v p h
      by_cases hk : e.key = k
      · have hp : e.priority ≤ p := h e (by simp [findEntry, hk])
        rw [show setEntries (e :: rest) k v p = ⟨k, v, p⟩ :: rest from by
          simp [setEntries, hk, hp]]
        simp [findEntry]
      · rw [show setEntries (e :: rest) k v p = e :: setEntries rest k v p from by
          simp [setEntries, hk]]
        rw [show findEntry (e :: setEntries rest k v p) k = findEntry (setEntries rest k v p) k
          from by simp [findEntry, hk]]
        exact ih k v p (fun e' he' => h e' (by simp [findEntry, hk, he']))

theorem getItem_set_of_le (s : Settings) (k : String) (v : SettingVal) (p : Nat)
    (h : ∀ q, s.getpriority k = some q → q ≤ p) :
    (s.set k v p).getItem k = v := by
  have h' : ∀ e, findEntry s.entries k = some e → e.priority ≤ p := by
    intro e he
    exact h e.priority (by simp [Settings.getpriority, he])
  simp [Settings.set, Settings.getItem, findEntry_setEntries_self s.entries k v p h']

theorem _run_command_snd (cmd : CmdInstance) (args : List String) (opts : Opts) :
    (_run_command cmd args opts).2 = cmd.cls.runCmd args opts := by
  simp only [_run_command]
  cases opts.profile with
  | none => rfl
  | some f =>
      by_cases hf : f = ""
      · simp [hf]
      · simp [hf]

theorem _run_print_help_usage_exits (p : OptParser) (msg : String) (ph : Bool) :
    (_run_print_help p (.usageError msg ph)).2 = .exited 2 := by
  simp only [_run_print_help]
  by_cases hm : msg = ""
  · subst hm
    cases ph <;> simp
  · simp [hm]

/-- C8: pushing requests A(priority 5), B(priority 1), C(priority 5) in that
order into the scheduling core's request queue and popping with an unlimited
throttle yields the order A, C, B (priority descending, insertion sequence
ascending within equal priority). -/
theorem C8_queue_pop_order :
    scenarioQueue.popReady.1 = some ⟨"A", 5⟩
    ∧ scenarioQueue.popReady.2.popReady.1 = some ⟨"C", 5⟩
    ∧ scenarioQueue.popReady.2.popReady.2.popReady.1 = some ⟨"B", 1⟩
    ∧ scenarioQueue.popReady.2.popReady.2.popReady.2.popReady.1 = Option.none := by
  decide

theorem find?_getElem?_findIdx {α : Type} (p : α → Bool) :
    ∀ (l : List α) (c : α), l.find? p = some c → l[l.findIdx p]? = some c := by
  intro l
  induction l with
  | nil => intro c h; cases h
  | cons a rest ih =>
      intro c h
      by_cases hp : p a = true
      · rw [List.find?_cons_of_pos _ hp] at h
        cases h
        rw [List.findIdx_cons, hp]
        simp
      · rw [List.find?_cons_of_neg _ hp] at h
        rw [List.findIdx_cons, show p a = false from by simpa using hp]
        simpa using ih c h

/-- C9: `_pop_command_name(argv)` returns the first element of `argv[1:]`
that does not start with `-` (and `None` when there is none, leaving `argv`
unchanged); when it returns the element at position `i+1` of `argv` it
deletes the element at position `i`, so `argv` shrinks by exactly one
element. -/
theorem C9_pop_command_name (argv : List String) :
    (_pop_command_name argv =
      match (argv.drop 1).find? (fun s => !(pyStartsWith s "-")) with
      | some c =>
          (some c, argv.eraseIdx ((argv.drop 1).findIdx (fun s => !(pyStartsWith s "-"))))
      | Option.none => (Option.none, argv))
    ∧ ((_pop_command_name argv).1 = Option.none ↔
        ∀ a ∈ argv.drop 1, pyStartsWith a "-" = true)
    ∧ ((_pop_command_name argv).1 = Option.none → (_pop_command_name argv).2 = argv)
    ∧ (∀ c, (_pop_command_name argv).1 = some c →
        (argv.drop 1).findIdx (fun s => !(pyStartsWith s "-")) + 1 < argv.length ∧
        argv[(argv.drop 1).findIdx (fun s => !(pyStartsWith s "-")) + 1]? = some c ∧
        (_pop_command_name argv).2 =
          argv.eraseIdx ((argv.drop 1).findIdx (fun s => !(pyStartsWith s "-"))) ∧
        (_pop_command_name argv).2.length + 1 = argv.length) := by
  have hmain : _pop_command_name argv =
      match (argv.drop 1).find? (fun s => !(pyStartsWith s "-")) with
      | some c =>
          (some c, argv.eraseIdx ((argv.drop 1).findIdx (fun s => !(pyStartsWith s "-"))))
      | Option.none => (Option.none, argv) := by
    rw [_pop_command_name, popGo_spec]
    cases (argv.drop 1).find? (fun s => !(pyStartsWith s "-")) <;> simp
  refine ⟨hmain, ?_, ?_, ?_⟩
  · rw [hmain]
    cases hf : (argv.drop 1).find? (fun s => !(pyStartsWith s "-")) with
    | some c =>
        simp only []
        constructor
        · intro h; cases h
        · intro hall
          have := List.find?_some hf
          have hc := List.mem_of_find?_eq_some hf
          rw [hall c hc] at this
          cases this
    | none =>
        simp only []
        rw [List.find?_eq_none] at hf
        constructor
        · intro _ a ha
          have := hf a ha
          simpa using this
        · intro _
          trivial
  · rw [hmain]
    cases hf : (argv.drop 1).find? (fun s => !(pyStartsWith s "-")) with
    | some c => intro h; cases h
    | none => intro _; rfl
  · intro c hc
    rw [hmain] at hc ⊢
    cases hf : (argv.drop 1).find? (fun s => !(pyStartsWith s "-")) with
    | none =>
        rw [hf] at hc
        simp at hc
    | some c' =>
        rw [hf] at hc
        simp only [] at hc ⊢
        have hcc : c' = c := by simpa using hc
        subst hcc
        have hmem := List.mem_of_find?_eq_some hf
        have hp := List.find?_some hf
        have hlt : (argv.drop 1).findIdx (fun s => !(pyStartsWith s "-"))
            < (argv.drop 1).length :=
          List.findIdx_lt_length_of_exists ⟨c', hmem, hp⟩
        have hne : argv ≠ [] := by
          intro h
          subst h
          simp at hmem
        have hlen : 1 ≤ argv.length := by
          cases argv with
          | nil => exact absurd rfl hne
          | cons a l => simp
        have hdl : (argv.drop 1).length = argv.length - 1 := by simp
        have hlt2 : (argv.drop 1).findIdx (fun s => !(pyStartsWith s "-")) + 1
            < argv.length := by omega
        refine ⟨hlt2, ?_, by trivial, ?_⟩
        · have hget : (argv.drop 1)[(argv.drop 1).findIdx
              (fun s => !(pyStartsWith s "-"))]? = some c' :=
            find?_getElem?_findIdx _ _ _ hf
          rw [← hget, List.getElem?_drop]
          rw [show 1 + (argv.drop 1).findIdx (fun s => !(pyStartsWith s "-"))
              = (argv.drop 1).findIdx (fun s => !(pyStartsWith s "-")) + 1 from by omega]
        · rw [List.length_eraseIdx]
          rw [if_pos (by omega)]
          omega

/-- C9 witness: on `["scrapy", "-a", "crawl", "x"]` the name `crawl` is
popped, the flag before it is deleted, and the list shrinks by one. -/
theorem C9_witness :
    (_pop_command_name ["scrapy", "-a", "crawl", "x"]).2.length + 1 = 4 := by
  have h := ((C9_pop_command_name ["scrapy", "-a", "crawl", "x"]).2.2.2) "crawl" (by decide)
  simpa using h.2.2.2

/-- C4 counterexample: for a `UsageError` with non-empty text and
`print_help` set, `_run_print_help` does not print the parser help — the
`parser.error` call terminates the process first — contradicting the claim
that the help is printed whenever the `print_help` flag is set. -/
theorem C4_counterexample :
    (_run_print_help someParser (.usageError "bad arguments" true)).2 = ControlFlow.exited 2
    ∧ ((_run_print_help someParser (.usageError "bad arguments" true)).1.contains
        Event.printHelp) = false
    ∧ (_run_print_help someParser (.usageError "bad arguments" true)).1
        = [Event.parserError "bad arguments"] := by
  exact ⟨rfl, rfl, rfl⟩

/-- C4 (amended): `_run_print_help` returns normally when the call returns
normally; on a `UsageError` with non-empty text it reports the text through
the parser (whose `error` call terminates the process with status 2, so the
help is not printed); on a `UsageError` with empty text it prints the help
iff `print_help` is set and exits with status 2; any other exception
propagates unhandled. -/
theorem C4_run_print_help (p : OptParser) :
    (∀ a, _run_print_help p (.ok a) = ([], .normal))
    ∧ (∀ msg ph, msg ≠ "" →
        _run_print_help p (.usageError msg ph) = ([.parserError msg], .exited 2))
    ∧ (∀ ph, _run_print_help p (.usageError "" ph)
        = ((if ph then [.printHelp] else []), .exited 2))
    ∧ (∀ e, _run_print_help p (.raisedOther e) = ([], .raised e)) := by
  refine ⟨fun a => rfl, ?_, ?_, fun e => rfl⟩
  · intro msg ph h
    simp [_run_print_help, h]
  · intro ph
    cases ph <;> simp [_run_print_help]

/-- C4 witness: the amended theorem applied to a concrete non-empty
usage-error text. -/
theorem C4_witness :
    _run_print_help someParser (.usageError "x" true) = ([.parserError "x"], .exited 2) :=
  (C4_run_print_help someParser).2.1 "x" true (by decide)

/-- C7: for the `scrapy.commands` entry-point group, when every entry point
loads a class the result maps each entry point's name to an instance of its
loaded class (names being distinct), and when some entry point loads a
non-class the call raises `Exception("Invalid entry point <name>")` naming
an invalid entry point (the first one). -/
theorem C7_entry_points (w : World) :
    ((∀ ep ∈ w.entryPoints, ep.loadsClass = true) →
      ∃ m, _get_commands_from_entry_points w = .ok m ∧
        ((w.entryPoints.map EntryPoint.name).Nodup →
          ∀ ep ∈ w.entryPoints, dictGet m ep.name = some ⟨ep.cls⟩))
    ∧ (∀ ep ∈ w.entryPoints, ep.loadsClass = false →
        ∃ bad, bad ∈ w.entryPoints ∧ bad.loadsClass = false ∧
          _get_commands_from_entry_points w = .error ("Invalid entry point " ++ bad.name)) := by
  constructor
  · intro hall
    obtain ⟨m, hm, _, hin⟩ := entryPointsLoop_all_classes w.entryPoints [] hall
    exact ⟨m, hm, hin⟩
  · intro ep hm hbad
    exact entryPointsLoop_first_bad w.entryPoints [] ep hm hbad

/-- C7 witness: a world whose entry points all load classes yields the
expected registry; a world with a bad entry point raises naming it. -/
theorem C7_witness :
    (∃ m, _get_commands_from_entry_points fullWorld = .ok m ∧
      dictGet m "version" = some ⟨versionCls⟩)
    ∧ (∃ bad, bad ∈ badEntryWorld.entryPoints ∧ bad.loadsClass = false ∧
        _get_commands_from_entry_points badEntryWorld
          = .error ("Invalid entry point " ++ bad.name)) := by
  constructor
  · have hall : ∀ ep ∈ fullWorld.entryPoints, ep.loadsClass = true := by
      intro ep hm
      have h := List.mem_singleton.mp hm
      subst h
      rfl
    obtain ⟨m, hm, hin⟩ := (C7_entry_points fullWorld).1 hall
    refine ⟨m, hm, ?_⟩
    exact hin (by decide) ⟨"version", true, versionCls⟩ (List.mem_singleton.mpr rfl)
  · exact (C7_entry_points badEntryWorld).2 ⟨"broken", false, defaultCls⟩
      (List.mem_cons_of_mem _ (List.mem_singleton.mpr rfl)) rfl

/-- C10: `_iter_command_classes` yields exactly the objects of the walked
modules that are classes, subclasses of `ScrapyCommand`, not
`ScrapyCommand` itself, and whose `__module__` equals the name of the
module they were found in; hence a subclass only imported into a walked
module (its `__module__` naming no walked module it appears in as defined)
is never yielded. -/
theorem C10_iter_command_classes (w : World) (mname : String) (c : CmdClass) :
    (c ∈ _iter_command_classes w mname ↔
      ∃ m ∈ w.walkModules mname, ∃ o ∈ m.objs,
        o.isclass = true ∧ o.issubclassOfScrapyCommand = true ∧
        o.isScrapyCommandItself = false ∧ o.cls.clsModule = m.name ∧ o.cls = c)
    ∧ ((∀ m ∈ w.walkModules mname, ∀ o ∈ m.objs, o.cls = c → o.cls.clsModule ≠ m.name) →
        c ∉ _iter_command_classes w mname) := by
  have hiff : c ∈ _iter_command_classes w mname ↔
      ∃ m ∈ w.walkModules mname, ∃ o ∈ m.objs,
        o.isclass = true ∧ o.issubclassOfScrapyCommand = true ∧
        o.isScrapyCommandItself = false ∧ o.cls.clsModule = m.name ∧ o.cls = c := by
    simp only [_iter_command_classes, List.mem_flatMap, List.mem_map, List.mem_filter,
      Bool.and_eq_true, beq_iff_eq, Bool.not_eq_true']
    constructor
    · rintro ⟨m, hm, o, ⟨ho, ⟨⟨⟨h1, h2⟩, h3⟩, h4⟩⟩, rfl⟩
      exact ⟨m, hm, o, ho, h1, h2, h4, h3, rfl⟩
    · rintro ⟨m, hm, o, ho, h1, h2, h4, h3, rfl⟩
      exact ⟨m, hm, o, ⟨ho, ⟨⟨⟨h1, h2⟩, h3⟩, h4⟩⟩, rfl⟩
  refine ⟨hiff, ?_⟩
  intro hnone hc
  obtain ⟨m, hm, o, ho, _, _, _, h3, h4⟩ := hiff.1 hc
  exact hnone m hm o ho h4 h3

/-- C10 witness: the `crawl` class defined in the walked module
`scrapy.commands.crawl` is yielded. -/
theorem C10_witness : crawlCls ∈ _iter_command_classes fullWorld "scrapy.commands" := by
  refine ((C10_iter_command_classes fullWorld "scrapy.commands" crawlCls).1).mpr ?_
  refine ⟨⟨"scrapy.commands.crawl", [objOf crawlCls]⟩, ?_, objOf crawlCls, ?_,
    rfl, rfl, rfl, rfl, rfl⟩
  · exact List.mem_singleton.mpr rfl
  · exact List.mem_singleton.mpr rfl

/-- C2 counterexample: `twoClassWorld` walks a module file `m.fetch`
defining the two eligible command classes `clsA` and `clsB`; both are
yielded, yet the resulting registry holds only an instance of `clsB` (the
later class overwrote the shared key `fetch`), so no instance of the
yielded, eligible `clsA` is included — contradicting the claimed
if-and-only-if inclusion. -/
theorem C2_counterexample :
    _iter_command_classes twoClassWorld "m" = [clsA, clsB]
    ∧ clsA.requires_project = false
    ∧ clsA.id = 4
    ∧ ((_get_commands_from_module twoClassWorld "m" false).map
        (fun kv => (kv.1, kv.2.cls.id))) = [("fetch", 5)]
    ∧ ((_get_commands_from_module twoClassWorld "m" false).all
        fun kv => kv.2.cls.id != clsA.id) = true := by
  exact ⟨rfl, rfl, rfl, rfl, rfl⟩

/-- C2 (amended): `_get_commands_from_module(module, inproject)` maps a
registry key `k` to an instance of the last class yielded by
`_iter_command_classes` that is eligible (`inproject` or not
`requires_project`) and whose defining module's last dot-component is `k`;
hence a yielded class's instance is included under its key exactly when it
is eligible and is the last eligible class with that key. -/
theorem C2_commands_from_module (w : World) (mname : String) (inproject : Bool) :
    (∀ k, dictGet (_get_commands_from_module w mname inproject) k
      = (pickLast (fun c => (inproject || !c.requires_project) &&
            (lastComponent c.clsModule == k)) (_iter_command_classes w mname)).map
          (fun c => CmdInstance.mk c))
    ∧ (∀ c ∈ _iter_command_classes w mname,
        (inproject || !c.requires_project) = true →
        pickLast (fun c' => (inproject || !c'.requires_project) &&
            (lastComponent c'.clsModule == lastComponent c.clsModule))
          (_iter_command_classes w mname) = some c →
        dictGet (_get_commands_from_module w mname inproject) (lastComponent c.clsModule)
          = some ⟨c⟩) := by
  have hmain : ∀ k, dictGet (_get_commands_from_module w mname inproject) k
      = (pickLast (fun c => (inproject || !c.requires_project) &&
            (lastComponent c.clsModule == k)) (_iter_command_classes w mname)).map
          (fun c => CmdInstance.mk c) := by
    intro k
    rw [_get_commands_from_module, dictGet_cmdsFold]
    cases hp : pickLast (fun c => (inproject || !c.requires_project) &&
        (lastComponent c.clsModule == k)) (_iter_command_classes w mname) with
    | some r => rfl
    | none => rfl
  refine ⟨hmain, ?_⟩
  intro c _ _ hp
  rw [hmain (lastComponent c.clsModule), hp]
  rfl

/-- C2 witness: in `twoClassWorld` the key `fetch` maps to an instance of
`clsB`, the last eligible class of the module file. -/
theorem C2_witness :
    dictGet (_get_commands_from_module twoClassWorld "m" false) "fetch" = some ⟨clsB⟩ := by
  have hmem : clsB ∈ _iter_command_classes twoClassWorld "m" := by
    rw [show _iter_command_classes twoClassWorld "m" = [clsA, clsB] from rfl]
    exact List.mem_cons_of_mem _ (List.mem_singleton.mpr rfl)
  exact (C2_commands_from_module twoClassWorld "m" false).2 clsB hmem rfl rfl

/-- C1: when entry-point loading succeeds, `_get_commands_dict` returns the
registry layered from the built-in `scrapy.commands` module, then the
entry-point commands, then (only when `settings['COMMANDS_MODULE']` is
truthy) the project commands module, a later source's entry replacing an
earlier one's on a name collision. -/
theorem C1_get_commands_dict (w : World) (settings : Settings) (inproject : Bool)
    (mE : Dict CmdInstance) (hE : _get_commands_from_entry_points w = .ok mE) :
    ∃ d, _get_commands_dict w settings inproject = .ok d ∧
      ∀ k, dictGet d k =
        optOr
          (if (settings.getItem "COMMANDS_MODULE").truthy then
            dictGet (_get_commands_from_module w
              (settings.getItem "COMMANDS_MODULE").asStr inproject) k
          else Option.none)
          (optOr (dictGet mE k)
            (dictGet (_get_commands_from_module w "scrapy.commands" inproject) k)) := by
  have hndE : (dictKeys mE).Nodup :=
    nodup_dictKeys_entryPointsLoop w.entryPoints [] mE (by simp [dictKeys]) hE
  simp only [_get_commands_dict, hE]
  by_cases ht : (settings.getItem "COMMANDS_MODULE").truthy = true
  · rw [if_pos ht]
    refine ⟨_, rfl, fun k => ?_⟩
    rw [if_pos ht,
      dictGet_dictUpdate _ _ (nodup_dictKeys_module w
        (settings.getItem "COMMANDS_MODULE").asStr inproject) k,
      dictGet_dictUpdate _ _ hndE k]
  · rw [if_neg ht]
    refine ⟨_, rfl, fun k => ?_⟩
    rw [if_neg ht, dictGet_dictUpdate _ _ hndE k]
    rfl

/-- C1 witness: in `fullWorld` with a truthy `COMMANDS_MODULE`, the
project-local `crawl` replaces the built-in one and the entry-point
`version` command is present. -/
theorem C1_witness :
    ∃ d, _get_commands_dict fullWorld projSettings false = .ok d ∧
      dictGet d "crawl" = some ⟨projCrawlCls⟩ ∧ dictGet d "version" = some ⟨versionCls⟩ := by
  obtain ⟨d, hd, hget⟩ := C1_get_commands_dict fullWorld projSettings false
    [("version", ⟨versionCls⟩)] rfl
  refine ⟨d, hd, ?_, ?_⟩
  · rw [hget "crawl"]
    rfl
  · rw [hget "version"]
    rfl

/-- C5: with `settings=None`, `execute` uses the pre-imported
`scrapy.conf.settings` singleton when available, otherwise
`get_project_settings()` with `EDITOR` overwritten from the environment
when that variable is set; and in every case (explicitly passed settings
included) the resolved settings are written into the process-wide
`scrapy.conf.settings`. -/
theorem C5_settings_resolution (w : World) (argv? : Option (List String)) :
    (∀ s, (execute w argv? (some s)).confSettings = some s)
    ∧ (w.scrapyConfInSysModules = true → w.confHasSettings = true →
        (execute w argv? Option.none).confSettings = some w.confSettings0)
    ∧ (w.scrapyConfInSysModules = false ∨ w.confHasSettings = false →
        (execute w argv? Option.none).confSettings =
          some (match w.editorEnv with
            | some e => w.projectSettings.set "EDITOR" (.str e) (get_settings_priority "project")
            | Option.none => w.projectSettings))
    ∧ (w.scrapyConfInSysModules = false ∨ w.confHasSettings = false →
        ∀ e, w.editorEnv = some e →
        (∀ q, w.projectSettings.getpriority "EDITOR" = some q →
          q ≤ get_settings_priority "project") →
        (resolveInitialSettings w Option.none).getItem "EDITOR" = .str e) := by
  refine ⟨fun s => rfl, ?_, ?_, ?_⟩
  · intro h1 h2
    simp [execute, resolveInitialSettings, h1, h2]
  · intro h
    rcases h with h | h <;> simp [execute, resolveInitialSettings, h]
  · intro h e he hq
    have hcond : (w.scrapyConfInSysModules && w.confHasSettings) = false := by
      rcases h with h | h <;> simp [h]
    rw [show resolveInitialSettings w Option.none
        = w.projectSettings.set "EDITOR" (.str e) (get_settings_priority "project") from by
      simp [resolveInitialSettings, hcond, he]]
    exact getItem_set_of_le _ _ _ _ hq

/-- C5 witness: the conf-singleton path and the project-settings path with
`EDITOR` taken from the environment, at concrete worlds. -/
theorem C5_witness :
    (execute confWorld (some ["scrapy"]) Option.none).confSettings = some projSettings
    ∧ (execute editorWorld (some ["scrapy"]) Option.none).confSettings
        = some (emptySettings.set "EDITOR" (.str "vim") 20)
    ∧ (resolveInitialSettings editorWorld Option.none).getItem "EDITOR" = .str "vim" := by
  refine ⟨(C5_settings_resolution confWorld (some ["scrapy"])).2.1 rfl rfl, ?_, ?_⟩
  · exact (C5_settings_resolution editorWorld (some ["scrapy"])).2.2.1 (Or.inl rfl)
  · exact (C5_settings_resolution editorWorld (some ["scrapy"])).2.2.2 (Or.inl rfl) "vim" rfl
      (fun q hq => by simp [Settings.getpriority, editorWorld, baseWorld, emptySettings,
        findEntry] at hq)

theorem listingOut_finalCmd (w : World) (settings : Settings) (inproject : Bool) :
    (listingOut w settings inproject).finalCmd = Option.none := by
  simp only [listingOut]
  split <;> rfl

theorem commandPath_finalCmd (w : World) (settings : Settings) (c : String)
    (cmd : CmdInstance) (argvPopped : List String) (fc : FinalCmdState)
    (h : (commandPath w settings c cmd argvPopped).finalCmd = some fc) :
    fc.cls = cmd.cls
    ∧ fc.settingsAttr
        = settings.setdict cmd.cls.default_settings (get_settings_priority "command")
    ∧ fc.ranProcessOptions = true
    ∧ (fc.ranRun = true → fc.crawlerProcess = some ⟨fc.settingsAttr⟩) := by
  simp only [commandPath] at h
  split at h
  · injection h with h
    subst h
    exact ⟨rfl, rfl, rfl, fun hr => by cases hr⟩
  · injection h with h
    subst h
    exact ⟨rfl, rfl, rfl, fun hr => by cases hr⟩
  · split at h
    · injection h with h
      subst h
      exact ⟨rfl, rfl, rfl, fun _ => rfl⟩
    · injection h with h
      subst h
      exact ⟨rfl, rfl, rfl, fun _ => rfl⟩
    · injection h with h
      subst h
      exact ⟨rfl, rfl, rfl, fun _ => rfl⟩

/-- C6: whenever `execute` ran the selected command, it had merged the
command's `default_settings` into the settings object at priority
`command`, assigned that settings object to the command's `settings`
attribute, and assigned a `CrawlerProcess` built from those settings to the
command's `crawler_process` attribute (after `process_options` had run). -/
theorem C6_command_setup (w : World) (argv? : Option (List String)) (s? : Option Settings)
    (fc : FinalCmdState) (h : (execute w argv? s?).finalCmd = some fc)
    (hr : fc.ranRun = true) :
    fc.settingsAttr = (resolveInitialSettings w s?).setdict fc.cls.default_settings
        (get_settings_priority "command")
    ∧ fc.crawlerProcess = some ⟨fc.settingsAttr⟩
    ∧ fc.ranProcessOptions = true := by
  have hcore : (executeCore w (argv?.getD w.sysArgv)
      (resolveInitialSettings w s?)).finalCmd = some fc := h
  simp only [executeCore] at hcore
  split at hcore
  · simp at hcore
  · split at hcore
    · rw [listingOut_finalCmd] at hcore
      cases hcore
    · split at hcore
      · rw [listingOut_finalCmd] at hcore
        cases hcore
      · split at hcore
        · simp at hcore
        · obtain ⟨h1, h2, h3, h4⟩ := commandPath_finalCmd _ _ _ _ _ _ hcore
          refine ⟨?_, h4 hr, h3⟩
          rw [h1]
          exact h2

/-- C6 witness: the `scrapy crawl` run in `fullWorld` produces exactly this
final command state, and the theorem applies to it. -/
theorem C6_witness :
    crawlFinalState.settingsAttr
      = (resolveInitialSettings fullWorld Option.none).setdict
          crawlFinalState.cls.default_settings (get_settings_priority "command")
    ∧ crawlFinalState.crawlerProcess = some ⟨crawlFinalState.settingsAttr⟩
    ∧ crawlFinalState.ranProcessOptions = true :=
  C6_command_setup fullWorld (some ["scrapy", "crawl"]) Option.none crawlFinalState rfl rfl

theorem execute_outcome (w : World) (argv? : Option (List String)) (s? : Option Settings) :
    (execute w argv? s?).outcome
      = (executeCore w (argv?.getD w.sysArgv) (resolveInitialSettings w s?)).outcome := rfl

theorem execute_events (w : World) (argv? : Option (List String)) (s? : Option Settings) :
    (execute w argv? s?).events
      = (executeCore w (argv?.getD w.sysArgv) (resolveInitialSettings w s?)).events := rfl

theorem execute_finalCmd (w : World) (argv? : Option (List String)) (s? : Option Settings) :
    (execute w argv? s?).finalCmd
      = (executeCore w (argv?.getD w.sysArgv) (resolveInitialSettings w s?)).finalCmd := rfl

theorem listingOut_ok (w : World) (settings : Settings) (inproject : Bool)
    (cmds : Dict CmdInstance)
    (hd : _get_commands_dict w settings inproject = .ok cmds) :
    (listingOut w settings inproject).outcome = .exited 0
    ∧ ∃ items, Event.printCommandsList items ∈ (listingOut w settings inproject).events := by
  simp only [listingOut, _print_commands, hd]
  constructor
  · trivial
  · exact ⟨sortByName (cmds.map fun kv => (kv.1, kv.2.cls.shortDesc)), by simp⟩

/-- C3 (amended): when command discovery succeeds, `execute` takes exactly
one of three paths — no (or an empty) extracted command name prints the
listing and exits 0; an unknown name prints the unknown-command message and
exits 2; a known name runs the command: `process_options` and then `run`
are invoked and, when neither raises, the process exits with the command's
`exitcode` attribute, while a `UsageError` from `process_options` makes it
exit with status 2 without calling `run`. -/
theorem C3_execute_paths (w : World) (argv : List String) (s? : Option Settings)
    (cmds : Dict CmdInstance)
    (hd : _get_commands_dict w (resolveInitialSettings w s?) w.insideProject = .ok cmds) :
    (((_pop_command_name argv).1 = Option.none ∨ (_pop_command_name argv).1 = some "") →
      (execute w (some argv) s?).outcome = .exited 0 ∧
        ∃ items, Event.printCommandsList items ∈ (execute w (some argv) s?).events)
    ∧ (∀ c, (_pop_command_name argv).1 = some c → c ≠ "" → dictGet cmds c = Option.none →
        (execute w (some argv) s?).outcome = .exited 2 ∧
          Event.printUnknown c ∈ (execute w (some argv) s?).events)
    ∧ (∀ c cmd args opts, (_pop_command_name argv).1 = some c → c ≠ "" →
        dictGet cmds c = some cmd →
        w.parseArgs ((_pop_command_name argv).2.drop 1) = (args, opts) →
        ((cmd.cls.processOptions args opts = .ok () → cmd.cls.runCmd args opts = .ok () →
          (execute w (some argv) s?).outcome = .exited (cmd.cls.exitcodeAfterRun args opts) ∧
            ∃ fc, (execute w (some argv) s?).finalCmd = some fc ∧
              fc.ranProcessOptions = true ∧ fc.ranRun = true)
        ∧ (∀ m ph, cmd.cls.processOptions args opts = .usageError m ph →
            (execute w (some argv) s?).outcome = .exited 2 ∧
              ∃ fc, (execute w (some argv) s?).finalCmd = some fc ∧ fc.ranRun = false))) := by
  refine ⟨?_, ?_, ?_⟩
  · intro hnone
    have hl := listingOut_ok w (resolveInitialSettings w s?) w.insideProject cmds hd
    rcases hnone with hc | hc
    · constructor
      · rw [execute_outcome]
        simp only [executeCore, hd, hc, Option.getD]
        exact hl.1
      · rw [execute_events]
        simp only [executeCore, hd, hc, Option.getD]
        exact hl.2
    · constructor
      · rw [execute_outcome]
        simp only [executeCore, hd, hc, Option.getD, if_pos]
        exact hl.1
      · rw [execute_events]
        simp only [executeCore, hd, hc, Option.getD, if_pos]
        exact hl.2
  · intro c hc hne hget
    constructor
    · rw [execute_outcome]
      simp only [executeCore, hd, hc, Option.getD, if_neg hne, hget]
    · rw [execute_events]
      simp only [executeCore, hd, hc, Option.getD, if_neg hne, hget]
      simp [_print_unknown_command]
  · intro c cmd args opts hc hne hget hpa
    have hcp : executeCore w ((some argv).getD w.sysArgv) (resolveInitialSettings w s?)
        = commandPath w (resolveInitialSettings w s?) c cmd (_pop_command_name argv).2 := by
      simp only [executeCore, hd, hc, Option.getD, if_neg hne, hget]
    constructor
    · intro hpo hrun
      constructor
      · rw [execute_outcome, hcp]
        simp only [commandPath, hpa, hpo, _run_print_help, _run_command_snd, hrun]
      · rw [execute_finalCmd, hcp]
        simp only [commandPath, hpa, hpo, _run_print_help, _run_command_snd, hrun]
        exact ⟨_, rfl, rfl, rfl⟩
    · intro m ph hpo
      have hex : (_run_print_help
          { usage := "scrapy " ++ c ++ " " ++ cmd.cls.synStr,
            description := cmd.cls.longDesc } (.usageError m ph)).2 = .exited 2 :=
        _run_print_help_usage_exits _ m ph
      constructor
      · rw [execute_outcome, hcp]
        simp only [commandPath, hpa, hpo, hex]
      · rw [execute_finalCmd, hcp]
        simp only [commandPath, hpa, hpo, hex]
        exact ⟨_, rfl, rfl⟩

/-- C3 counterexample: in `usageErrWorld` the recognized command `bad` is
selected, its `process_options` raises a `UsageError`, and `execute` exits
with status 2 without ever calling `run` — not with the command's
`exitcode` attribute (0) after running it, as the claim's third path
states. -/
theorem C3_counterexample :
    (execute usageErrWorld (some ["scrapy", "bad"]) Option.none).outcome
        = ControlFlow.exited 2
    ∧ usageErrCls.exitcodeAfterRun [] ⟨Option.none⟩ = 0
    ∧ ((execute usageErrWorld (some ["scrapy", "bad"]) Option.none).outcome
        == ControlFlow.exited 0) = false
    ∧ ((execute usageErrWorld (some ["scrapy", "bad"]) Option.none).finalCmd.map
        (·.ranRun)) = some false := by
  exact ⟨rfl, rfl, rfl, rfl⟩

/-- C3 witness: the amended theorem applied to the successful `scrapy
crawl` run of `fullWorld`, exercising the third path with no usage error. -/
theorem C3_witness :
    (execute fullWorld (some ["scrapy", "crawl"]) Option.none).outcome
      = ControlFlow.exited (crawlCls.exitcodeAfterRun [] ⟨Option.none⟩) := by
  have h := C3_execute_paths fullWorld ["scrapy", "crawl"] Option.none
    [("crawl", ⟨crawlCls⟩), ("version", ⟨versionCls⟩)] rfl
  exact ((h.2.2 "crawl" ⟨crawlCls⟩ [] ⟨Option.none⟩ rfl (by decide) rfl rfl).1 rfl rfl).1
